import Mathlib

set_option maxHeartbeats 1000000
set_option maxRecDepth 4000

namespace USDTBot

/- Shallow embedding of the Risk & Backtest Analytics Engine of this repository:
`optimization-tools/p2p_strategy_optimizer.py` (cost/profit model, backtest engine,
parameter sweep) and `optimization-tools/risk_portfolio_optimizer.py` (risk metrics,
position sizing).  Python/numpy doubles are modelled as exact rationals `ℚ`.
A value of the form `x / numpy.std(...)`, whose denominator is an irrational square
root, is kept symbolic in the inductive type `FloatV` below, together with a
real-valued interpretation relation `FloatVRepr`.  Fallible Python code (a raised
`ZeroDivisionError`) is modelled with `Option`. -/

/- numpy `np.mean(l)`: sum divided by length.  `np.mean` of an empty array is NaN in
numpy; every use below is guarded by non-emptiness, and the `ℚ` convention `x / 0 = 0`
makes the unguarded value 0. -/
def listMean (l : List ℚ) : ℚ := l.sum / (l.length : ℚ)

/- Square of numpy `np.std(l)` (population variance, ddof = 0):
mean of squared deviations from the mean. -/
def npVarP (l : List ℚ) : ℚ := listMean (l.map fun x => (x - listMean l) ^ 2)

/- Square of pandas `Series.std()` (sample variance, ddof = 1).  For a series of
length <= 1 pandas returns NaN; since every use in the source is a guard of the form
`std > 0` (False for NaN), returning 0 here produces exactly the same branch. -/
def sampleVar (l : List ℚ) : ℚ :=
  if l.length ≤ 1 then 0
  else (l.map fun x => (x - listMean l) ^ 2).sum / ((l.length : ℚ) - 1)

/- pandas `Series.pct_change().dropna()`: consecutive fractional changes
`(p[i] - p[i-1]) / p[i-1]`, the leading NaN dropped. -/
def pctChange (l : List ℚ) : List ℚ :=
  List.zipWith (fun prev cur => (cur - prev) / prev) l l.tail

/- Symbolic value of a numpy float computed by the scripts.  `q x` is an exactly
rational value, `posInf` is numpy `np.inf`, `divSqrt n v` is `n / sqrt v` (a ratio
whose denominator is a numpy standard deviation with variance `v`), and
`sharpeAnn m v` is `m / sqrt v * sqrt 252` (the annualized backtest Sharpe ratio). -/
inductive FloatV where
  | q (x : ℚ)
  | posInf
  | divSqrt (n v : ℚ)
  | sharpeAnn (m v : ℚ)
deriving DecidableEq, Inhabited

/- Real-number interpretation of a `FloatV`.  `posInf` has no real value. -/
def FloatVRepr : FloatV → ℝ → Prop
  | .q a, x => x = (a : ℝ)
  | .posInf, _ => False
  | .divSqrt n v, x => x = (n : ℝ) / Real.sqrt (v : ℝ)
  | .sharpeAnn m v, x => x = (m : ℝ) / Real.sqrt (v : ℝ) * Real.sqrt 252

/- The exchanges of the fee table `P2PStrategyOptimizer.fees`. -/
inductive Exchange where
  | zebpay
  | kucoin
  | binance_p2p
deriving DecidableEq, Inhabited

/- `fees[exchange]['trading_fee']`: 0.25%, 0.1%, 0. -/
def Exchange.trading_fee : Exchange → ℚ
  | .zebpay => 1 / 400
  | .kucoin => 1 / 1000
  | .binance_p2p => 0

/- `fees[exchange]['withdrawal_fee']`: 8 USDT, 1.5 USDT, 0. -/
def Exchange.withdrawal_fee : Exchange → ℚ
  | .zebpay => 8
  | .kucoin => 3 / 2
  | .binance_p2p => 0

/- `fees['taxes']['tds']`: 1% TDS withheld on the sale. -/
def tds_rate : ℚ := 1 / 100

/- Result dictionary of `calculate_transaction_costs`.  The key `'investment'` holds
`total_investment` (price times amount plus the trading fee), exactly as in the
source. -/
structure TransactionCosts where
  investment : ℚ
  trading_fee : ℚ
  withdrawal_fee : ℚ
  total_costs : ℚ
deriving DecidableEq, Inhabited

/- `P2PStrategyOptimizer.calculate_transaction_costs(amount_usdt, buy_price, exchange)`. -/
def calculate_transaction_costs (ex : Exchange) (amount_usdt buy_price : ℚ) :
    TransactionCosts :=
  let investment := buy_price * amount_usdt
  let trading_fee := investment * ex.trading_fee
  let total_investment := investment + trading_fee
  let withdrawal_fee_inr := ex.withdrawal_fee * buy_price
  ⟨total_investment, trading_fee, withdrawal_fee_inr, total_investment + withdrawal_fee_inr⟩

/- Result dictionary of `calculate_profit`. -/
structure ProfitResult where
  gross_revenue : ℚ
  net_revenue : ℚ
  net_profit : ℚ
  roi : ℚ
  total_costs : ℚ
  profitable : Bool
deriving DecidableEq, Inhabited

/- `P2PStrategyOptimizer.calculate_profit(buy_price, sell_price, amount_usdt, exchange)`.
The function performs no input validation; the only way it can fail is the Python
`ZeroDivisionError` raised by `roi = net_profit / costs['investment'] * 100` when the
investment is zero, modelled as `none`. -/
def calculate_profit (ex : Exchange) (buy_price sell_price amount_usdt : ℚ) :
    Option ProfitResult :=
  let costs := calculate_transaction_costs ex amount_usdt buy_price
  let gross_revenue := sell_price * amount_usdt
  let tds := gross_revenue * tds_rate
  let net_revenue := gross_revenue - tds
  let net_profit := net_revenue - costs.total_costs
  if costs.investment = 0 then none
  else some ⟨gross_revenue, net_revenue, net_profit, net_profit / costs.investment * 100,
    costs.total_costs, decide (0 < net_profit)⟩

/- A market snapshot row, with the fields of the synthetic DataFrame that
`backtest_strategy` actually reads. -/
structure Snapshot where
  timestamp : ℤ
  hour : ℤ
  zebpay_price : ℚ
  p2p_express_price : ℚ
deriving DecidableEq, Inhabited

/- A strategy configuration dictionary (`current_config` and its per-grid-point
copies). -/
structure StrategyConfig where
  min_profit_threshold : ℚ
  max_trade_amount : ℚ
  min_trade_amount : ℚ
  position_size_pct : ℚ
  stop_loss_pct : ℚ
  take_profit_pct : ℚ
deriving DecidableEq, Inhabited

/- `P2PStrategyOptimizer.current_config`. -/
def current_config : StrategyConfig :=
  ⟨100, 10000, 1000, 1 / 10, 1 / 50, 3 / 100⟩

/- `current_config.copy()` with `config['min_profit_threshold'] = threshold`. -/
def configWithThreshold (t : ℚ) : StrategyConfig :=
  ⟨t, current_config.max_trade_amount, current_config.min_trade_amount,
    current_config.position_size_pct, current_config.stop_loss_pct,
    current_config.take_profit_pct⟩

/- A trade record appended to `trades` by `backtest_strategy`. -/
structure Trade where
  timestamp : ℤ
  buy_price : ℚ
  sell_price : ℚ
  amount_usdt : ℚ
  investment : ℚ
  profit : ℚ
  roi : ℚ
  hour : ℤ
deriving DecidableEq, Inhabited

/- The snapshot loop of `backtest_strategy`.  State: the remaining rows, the running
`capital` and `max_position_size` (the latter is recomputed from the capital only
after an accepted trade, exactly as in the source).  A `none` from
`calculate_profit` (zero investment, a NaN cascade in numpy) makes the acceptance
condition false, so the row is skipped. -/
def backtestGo (cfg : StrategyConfig) :
    List Snapshot → ℚ → ℚ → List Trade × ℚ
  | [], capital, _ => ([], capital)
  | row :: rest, capital, maxPos =>
    let buy_price := row.zebpay_price
    let sell_price := row.p2p_express_price
    let trade_value := max (min maxPos cfg.max_trade_amount) cfg.min_trade_amount
    let amount_usdt := trade_value / buy_price
    match calculate_profit .zebpay buy_price sell_price amount_usdt with
    | none => backtestGo cfg rest capital maxPos
    | some pa =>
      if cfg.min_profit_threshold ≤ pa.net_profit ∧ pa.profitable = true then
        let capital' := capital + pa.net_profit
        let t : Trade := ⟨row.timestamp, buy_price, sell_price, amount_usdt,
          trade_value, pa.net_profit, pa.roi, row.hour⟩
        (t :: (backtestGo cfg rest capital' (capital' * cfg.position_size_pct)).1,
          (backtestGo cfg rest capital' (capital' * cfg.position_size_pct)).2)
      else backtestGo cfg rest capital maxPos

/- `P2PStrategyOptimizer.backtest_strategy(data, config)`: the ordered trade list
and the final capital.  Starting capital 100000 INR. -/
def backtest_strategy (data : List Snapshot) (cfg : StrategyConfig) :
    List Trade × ℚ :=
  backtestGo cfg data 100000 (100000 * cfg.position_size_pct)

/- The fields of the `analyze_backtest_results` dictionary consumed by the
threshold sweep (`total_trades`, `total_profit`, `sharpe_ratio`, `win_rate`).
Fields not read by any claim (hourly aggregation, drawdown of the cumulative
profit, the raw trade frame) are not modelled. -/
structure BTMetrics where
  total_trades : ℕ
  total_profit : ℚ
  win_rate : ℚ
  sharpe_ratio : FloatV
deriving DecidableEq, Inhabited

/- The Sharpe ratio of `analyze_backtest_results`:
`np.mean(returns) / np.std(returns) * np.sqrt(252) if np.std(returns) > 0 else 0`,
with `np.std(r) > 0` iff the population variance is positive. -/
def btSharpe (returns : List ℚ) : FloatV :=
  if 0 < npVarP returns then .sharpeAnn (listMean returns) (npVarP returns)
  else .q 0

/- `P2PStrategyOptimizer.analyze_backtest_results(trades, final_capital)`:
the `{'error': ...}` dictionary returned for an empty trade list is modelled as
`none`.  `win_rate` is the fraction of strictly positive profits times 100 and
`returns` are `roi / 100` per trade, as in the source. -/
def analyze_backtest_results (trades : List Trade) : Option BTMetrics :=
  if trades = [] then none
  else some
    ⟨trades.length,
      (trades.map Trade.profit).sum,
      (((trades.filter fun t => 0 < t.profit).length : ℚ) / (trades.length : ℚ)) * 100,
      btSharpe (trades.map fun t => t.roi / 100)⟩

/- `np.arange(50, 500, 25)`: the profit-threshold grid 50, 75, ..., 475. -/
def thresholdsGrid : List ℚ := (List.range 18).map fun (i : ℕ) => 50 + 25 * (i : ℚ)

/- One row appended to `results` in `optimize_profit_threshold`. -/
structure ThrRow where
  threshold : ℚ
  total_profit : ℚ
  total_trades : ℕ
  sharpe_ratio : FloatV
  win_rate : ℚ
deriving DecidableEq, Inhabited

/- The evaluation of one grid threshold inside `optimize_profit_threshold`:
run the backtest under the modified config and keep the row unless the backtest
reported the no-trades error. -/
def sweepRow (data : List Snapshot) (t : ℚ) : Option ThrRow :=
  match analyze_backtest_results (backtest_strategy data (configWithThreshold t)).1 with
  | none => none
  | some m => some ⟨t, m.total_profit, m.total_trades, m.sharpe_ratio, m.win_rate⟩

/- The `results` list of `optimize_profit_threshold`, in grid order. -/
def sweepResults (data : List Snapshot) : List ThrRow :=
  thresholdsGrid.filterMap (sweepRow data)

/- pandas `Series.max()` over a nonempty rational column (0 for the empty column,
which never occurs in a guarded use). -/
def maxQ : List ℚ → ℚ
  | [] => 0
  | x :: xs => xs.foldl max x

/- The scan of pandas `Series.idxmax()`: keep the current best index and value,
replacing them only when a strictly greater value appears, so the first occurrence
of the maximum wins. -/
def idxmaxGo {α : Type} [LinearOrder α] : List α → ℕ → ℕ → α → ℕ × α
  | [], _, bi, bv => (bi, bv)
  | x :: xs, i, bi, bv =>
    if bv < x then idxmaxGo xs (i + 1) i x else idxmaxGo xs (i + 1) bi bv

/- pandas `Series.idxmax()` on a positionally indexed column. -/
def idxmax {α : Type} [LinearOrder α] : List α → ℕ
  | [] => 0
  | x :: xs => (idxmaxGo xs 1 0 x).1

/- The score of one sweep row:
`score = sharpe_ratio * 0.4 + total_profit / total_profit.max() * 0.3 + win_rate / 100 * 0.3`.
`maxP` is the sweep maximum of `total_profit`; the Sharpe factor is a real number
related to the symbolic `FloatV` by `FloatVRepr`. -/
def scoreRepr (maxP : ℚ) (r : ThrRow) (x : ℝ) : Prop :=
  ∃ sh : ℝ, FloatVRepr r.sharpe_ratio sh ∧
    x = sh * (2 / 5) + ((r.total_profit / maxP : ℚ) : ℝ) * (3 / 10) +
      ((r.win_rate / 100 : ℚ) : ℝ) * (3 / 10)

/- The real-valued score column of the sweep, row by row. -/
def scoresOf (data : List Snapshot) (scores : List ℝ) : Prop :=
  List.Forall₂ (scoreRepr (maxQ ((sweepResults data).map ThrRow.total_profit)))
    (sweepResults data) scores

/- `P2PStrategyOptimizer.optimize_profit_threshold(data)` as a relation between the
input data and the returned optimal threshold: if no grid point yields trades the
hard-coded default 100 is returned; otherwise the threshold at
`df_results['score'].idxmax()` is returned.  The score column is existentially
quantified because its Sharpe component is an irrational real. -/
def optimize_profit_threshold_rel (data : List Snapshot) (out : ℚ) : Prop :=
  (sweepResults data = [] ∧ out = 100) ∨
  (sweepResults data ≠ [] ∧ ∃ scores : List ℝ, scoresOf data scores ∧
    out = ((sweepResults data).map ThrRow.threshold).getD (idxmax scores) 0)

/- numpy `np.percentile(l, q)` with the default linear interpolation: sort the
observations, take `rank = q / 100 * (n - 1)`, and interpolate between the
neighbouring order statistics. -/
def npPercentile (l : List ℚ) (q : ℚ) : ℚ :=
  let s := List.insertionSort (· ≤ ·) l
  let n := s.length
  let rank : ℚ := q / 100 * ((n : ℚ) - 1)
  let k : ℕ := (⌊rank⌋).toNat
  let f : ℚ := rank - (⌊rank⌋ : ℚ)
  s.getD k 0 + f * (s.getD (min (k + 1) (n - 1)) 0 - s.getD k 0)

/- The `var_historical` field of `RiskPortfolioOptimizer.calculate_var(returns,
confidence_level)`: the empirical percentile at `confidence_level * 100`.  The
parametric and Cornish-Fisher fields use the transcendental `stats.norm.ppf` and no
claim mentions them, so they are not modelled. -/
def calculate_var_historical (returns : List ℚ) (confidence_level : ℚ) : ℚ :=
  npPercentile returns (confidence_level * 100)

/- `RiskPortfolioOptimizer.calculate_cvar(returns, confidence_level)`: the mean of
the observations at or below the historical VaR threshold. -/
def calculate_cvar (returns : List ℚ) (confidence_level : ℚ) : ℚ :=
  let var := npPercentile returns (confidence_level * 100)
  listMean (returns.filter fun x => x ≤ var)

/- `np.cumprod(1 + returns)` with running accumulator `acc`. -/
def cumprod1p (acc : ℚ) : List ℚ → List ℚ
  | [] => []
  | x :: xs =>
    let a := acc * (1 + x)
    a :: cumprod1p a xs

/- `np.maximum.accumulate` continued from the running maximum `m`. -/
def runningMaxAux (m : ℚ) : List ℚ → List ℚ
  | [] => []
  | x :: xs =>
    let m2 := max m x
    m2 :: runningMaxAux m2 xs

/- `np.maximum.accumulate(cumulative)`. -/
def runningMax : List ℚ → List ℚ
  | [] => []
  | x :: xs => x :: runningMaxAux x xs

/- One entry of the numpy `drawdown` array: a finite double, `-inf`, `+inf` or NaN. -/
inductive DDVal where
  | nan
  | neginf
  | posinf
  | fin (x : ℚ)
deriving DecidableEq, Inhabited

/- `(cumulative - running_max) / running_max` for one position, with IEEE numpy
division: a zero running maximum gives NaN when the numerator is also zero and a
signed infinity otherwise (warnings are suppressed in the scripts). -/
def ddOf (c m : ℚ) : DDVal :=
  if m = 0 then
    if c = 0 then .nan else if 0 < c then .posinf else .neginf
  else .fin ((c - m) / m)

/- Pairwise IEEE minimum as used by `np.min` (`ndarray.min`): NaN propagates, and
`-inf` is below everything else. -/
def DDVal.min2 : DDVal → DDVal → DDVal
  | .nan, _ => .nan
  | _, .nan => .nan
  | .neginf, _ => .neginf
  | _, .neginf => .neginf
  | .posinf, b => b
  | a, .posinf => a
  | .fin a, .fin b => .fin (min a b)

/- `np.min` over the drawdown array (the array is nonempty in every guarded use;
numpy raises on an empty one). -/
def npMinDD : List DDVal → DDVal
  | [] => .nan
  | x :: xs => xs.foldl DDVal.min2 x

/- The `max_drawdown` field of
`RiskPortfolioOptimizer.calculate_maximum_drawdown(returns)`: `drawdown.min()` on the
cumulative-product equity path.  The duration/average/frequency fields of the
returned dictionary are not read by any claim and are not modelled. -/
def calculate_maximum_drawdown (returns : List ℚ) : DDVal :=
  let cumulative := cumprod1p 1 returns
  npMinDD (List.zipWith ddOf cumulative (runningMax cumulative))

/- The assertion that a reported maximum drawdown is a non-positive number.  NaN
compares false against everything; `-inf` is below zero. -/
def DDVal.le0 : DDVal → Prop
  | .nan => False
  | .neginf => True
  | .posinf => False
  | .fin x => x ≤ 0

/- The `sharpe_ratio` field of `RiskPortfolioOptimizer.calculate_risk_metrics`:
`(mean - risk_free_rate) / volatility if volatility > 0 else 0` on the element-wise
annualized series `returns * 252`, with `risk_free_rate = 0.06` and
`np.std(ra) > 0` iff the population variance of `ra` is positive. -/
def sharpe_ratio_metric (returns : List ℚ) : FloatV :=
  let ra := returns.map fun x => x * 252
  if 0 < npVarP ra then .divSqrt (listMean ra - 3 / 50) (npVarP ra)
  else .q 0

/- The `sortino_ratio` field of `calculate_risk_metrics`:
`mean / np.std(negatives) if len(negatives) > 0 else 0` on the annualized series.
The guard is on the presence of negative returns, not on their deviation. -/
def sortino_ratio_metric (returns : List ℚ) : FloatV :=
  let ra := returns.map fun x => x * 252
  let negs := ra.filter fun x => x < 0
  if 0 < negs.length then .divSqrt (listMean ra) (npVarP negs)
  else .q 0

/- The `omega_ratio` field of
`RiskPortfolioOptimizer.calculate_risk_adjusted_performance(trading_data)`:
`returns = profit.pct_change().dropna()`, gains the sum above the zero threshold,
losses the absolute sum at or below it, and `gains / losses if losses > 0 else
np.inf`. -/
def omega_ratio_metric (profits : List ℚ) : FloatV :=
  let returns := pctChange profits
  let gains := (returns.filter fun x => 0 < x).sum
  let losses := |(returns.filter fun x => x ≤ 0).sum|
  if 0 < losses then .q (gains / losses) else .posInf

/- `RiskPortfolioOptimizer.kelly_criterion(win_rate, avg_win, avg_loss)`:
quarter-Kelly clamped into [0, 0.15], with an early 0 when the average loss is
zero.  (In numpy a zero win/loss ratio `b` makes `(b*p - q)/b` a signed infinity
or NaN and the clamp still returns 0, which agrees with the `ℚ` convention
`x / 0 = 0` used here.) -/
def kelly_criterion (win_rate avg_win avg_loss : ℚ) : ℚ :=
  if avg_loss = 0 then 0
  else
    let b := avg_win / |avg_loss|
    let p := win_rate
    let q := 1 - p
    let kelly_fraction := (b * p - q) / b
    max 0 (min (kelly_fraction * (1 / 4)) (3 / 20))

/- The fields of the `calculate_position_sizing_rules` dictionary read by the
claims.  `risk_adjusted` and `monte_carlo_based` depend on an unseeded
`np.random.normal` draw and are not modelled; `recommended` mixes an irrational
volatility target and is given by the relation `recommendedRepr` below. -/
structure PositionSizing where
  kelly_criterion : ℚ
  fixed_fractional : ℚ
  percent_volatility : FloatV
  win_rate : ℚ
  avg_win : ℚ
  avg_loss : ℚ
  profit_factor : FloatV
deriving DecidableEq, Inhabited

/- `RiskPortfolioOptimizer.calculate_position_sizing_rules(historical_data)` on the
`profit` column.  `len(historical_data) = 0` raises `ZeroDivisionError` at the win
rate, modelled as `none`.  `percent_volatility` is
`0.01 / returns.std() if returns.std() > 0 else 0.02`, surfaced with no clamp;
`profit_factor` is `abs(avg_win / avg_loss) if avg_loss != 0 else np.inf`. -/
def calculate_position_sizing_rules (profits : List ℚ) : Option PositionSizing :=
  if profits.length = 0 then none
  else
    let returns := pctChange profits
    let wins := profits.filter fun x => 0 < x
    let losses := profits.filter fun x => x ≤ 0
    let win_rate := (wins.length : ℚ) / (profits.length : ℚ)
    let avg_win := if 0 < wins.length then listMean wins else 0
    let avg_loss := if 0 < losses.length then listMean losses else 0
    some
      ⟨kelly_criterion win_rate avg_win avg_loss,
        1 / 50,
        if 0 < sampleVar returns then .divSqrt (1 / 100) (sampleVar returns)
        else .q (1 / 50),
        win_rate, avg_win, avg_loss,
        if avg_loss ≠ 0 then .q |avg_win / avg_loss| else .posInf⟩

/- The `recommended` field of `calculate_position_sizing_rules`:
`min(np.mean([kelly_size, fixed_fractional, percent_vol_size]), 0.10)`, as a
relation between the profit column and the recommended real size. -/
def recommendedRepr (profits : List ℚ) (x : ℝ) : Prop :=
  ∃ ps pv, calculate_position_sizing_rules profits = some ps ∧
    FloatVRepr ps.percent_volatility pv ∧
    x = min (((ps.kelly_criterion : ℝ) + (ps.fixed_fractional : ℝ) + pv) / 3) (1 / 10)

/- Helper: a positive-rate fee sum vanishes exactly when the base does. -/
theorem base_plus_fee_eq_zero_iff (x r : ℚ) (h : (1 : ℚ) + r ≠ 0) :
    x + x * r = 0 ↔ x = 0 := by
  rw [show x + x * r = x * (1 + r) by ring, mul_eq_zero]
  simp [h]

/- Helper: the profitability flag stored by `calculate_profit` is the sign test of
the stored net profit. -/
theorem calculate_profit_profitable {ex : Exchange} {b s a : ℚ} {pa : ProfitResult}
    (h : calculate_profit ex b s a = some pa) :
    (pa.profitable = true) ↔ 0 < pa.net_profit := by
  simp only [calculate_profit] at h
  split at h
  · cases h
  · have := Option.some.inj h
    subst this
    simp

/-- Claim C4 counterexample: `calculate_profit` at the non-positive buy price -1
(sell 5, quantity 2) does not fail at all - it returns a result dictionary - so the
claim that it fails with `InvalidInputError` for every input with a price or
quantity <= 0 is false. -/
theorem C4_counterexample : (calculate_profit .zebpay (-1) 5 2).isSome = true := by
  norm_num [calculate_profit, calculate_transaction_costs, Exchange.trading_fee]

/-- Claim C4 (amended): `calculate_profit` is a pure function (no side effects) that
performs no sign validation at all: it returns a result for exactly those inputs
whose `buyPrice * quantity` is nonzero, and the only failure is the Python
`ZeroDivisionError` (not an `InvalidInputError`) in the roi division when
`buyPrice * quantity = 0`. -/
theorem C4_amended (ex : Exchange) (b s a : ℚ) :
    (calculate_profit ex b s a).isSome = true ↔ b * a ≠ 0 := by
  have h1 : (1 : ℚ) + ex.trading_fee ≠ 0 := by
    cases ex <;> norm_num [Exchange.trading_fee]
  simp only [calculate_profit, calculate_transaction_costs]
  by_cases hz : b * a + b * a * ex.trading_fee = 0
  · rw [if_pos hz]
    simp [(base_plus_fee_eq_zero_iff (b * a) ex.trading_fee h1).mp hz]
  · rw [if_neg hz]
    exact iff_of_true rfl
      fun h => hz ((base_plus_fee_eq_zero_iff (b * a) ex.trading_fee h1).mpr h)

/-- Claim C1 counterexample: at the positive trade (buy 100, sell 110, quantity 1,
zebpay fees) the returned roi is not `netProfit / totalCost * 100`: the source
divides by `costs['investment']` (price plus trading fee), which excludes the fixed
withdrawal fee contained in `totalCost`. -/
theorem C1_counterexample :
    ((calculate_profit .zebpay 100 110 1).getD default).roi ≠
      ((calculate_profit .zebpay 100 110 1).getD default).net_profit /
        ((calculate_profit .zebpay 100 110 1).getD default).total_costs * 100 := by
  norm_num [calculate_profit, calculate_transaction_costs, Exchange.trading_fee,
    Exchange.withdrawal_fee, tds_rate]

/-- Claim C1 (amended): for every trade with positive buy price, sell price and
quantity, `calculate_profit` returns a result with
`totalCost = buyPrice*quantity*(1+tradingFeeRate) + withdrawalFeeFixed*buyPrice` and
`netProfit = netRevenue - totalCost`, but `roi` equals `netProfit` divided by the
fee-inclusive investment `buyPrice*quantity*(1+tradingFeeRate)` (excluding the
withdrawal fee) times 100, not `netProfit/totalCost*100`. -/
theorem C1_amended (ex : Exchange) (b s a : ℚ) (hb : 0 < b) (hs : 0 < s)
    (ha : 0 < a) :
    ∃ pr, calculate_profit ex b s a = some pr ∧
      pr.total_costs = b * a * (1 + ex.trading_fee) + ex.withdrawal_fee * b ∧
      pr.net_profit = (s * a - s * a * tds_rate) - pr.total_costs ∧
      pr.roi = pr.net_profit / (b * a * (1 + ex.trading_fee)) * 100 := by
  have hba : 0 < b * a := mul_pos hb ha
  have h1 : (0 : ℚ) < 1 + ex.trading_fee := by
    cases ex <;> norm_num [Exchange.trading_fee]
  have hinv : b * a + b * a * ex.trading_fee ≠ 0 := by
    rw [show b * a + b * a * ex.trading_fee = b * a * (1 + ex.trading_fee) by ring]
    positivity
  simp only [calculate_profit, calculate_transaction_costs]
  rw [if_neg hinv]
  refine ⟨_, rfl, by ring, by ring, ?_⟩
  dsimp only
  rw [show b * a + b * a * ex.trading_fee = b * a * (1 + ex.trading_fee) by ring]

/-- Claim C1 witness: the amended statement evaluated at the concrete positive
trade buy 100, sell 110, quantity 1 on zebpay. -/
theorem C1_witness :
    ∃ pr, calculate_profit .zebpay 100 110 1 = some pr ∧
      pr.total_costs =
        100 * 1 * (1 + Exchange.zebpay.trading_fee) + Exchange.zebpay.withdrawal_fee * 100 ∧
      pr.net_profit = (110 * 1 - 110 * 1 * tds_rate) - pr.total_costs ∧
      pr.roi = pr.net_profit / (100 * 1 * (1 + Exchange.zebpay.trading_fee)) * 100 :=
  C1_amended .zebpay 100 110 1 (by norm_num) (by norm_num) (by norm_num)

/- Helper: the backtest loop only emits trades whose net profit clears both the
threshold and the profitability flag, and the final capital is the starting capital
plus the emitted profits. -/
theorem backtestGo_spec (cfg : StrategyConfig) :
    ∀ (rows : List Snapshot) (capital maxPos : ℚ),
      (∀ t ∈ (backtestGo cfg rows capital maxPos).1,
          0 < t.profit ∧ cfg.min_profit_threshold ≤ t.profit) ∧
      (backtestGo cfg rows capital maxPos).2 =
        capital + ((backtestGo cfg rows capital maxPos).1.map Trade.profit).sum := by
  intro rows
  induction rows with
  | nil =>
    intro capital maxPos
    refine ⟨?_, by simp [backtestGo]⟩
    intro t ht
    simp [backtestGo] at ht
  | cons row rest ih =>
    intro capital maxPos
    rcases h : calculate_profit .zebpay row.zebpay_price row.p2p_express_price
        (max (min maxPos cfg.max_trade_amount) cfg.min_trade_amount / row.zebpay_price)
      with _ | pa
    · simpa only [backtestGo, h] using ih capital maxPos
    · by_cases hc : cfg.min_profit_threshold ≤ pa.net_profit ∧ pa.profitable = true
      · simp only [backtestGo, h, if_pos hc]
        obtain ⟨ih1, ih2⟩ :=
          ih (capital + pa.net_profit)
            ((capital + pa.net_profit) * cfg.position_size_pct)
        constructor
        · intro t ht
          rcases List.mem_cons.mp ht with rfl | hmem
          · exact ⟨(calculate_profit_profitable h).mp hc.2, hc.1⟩
          · exact ih1 t hmem
        · simp only [List.map_cons, List.sum_cons]
          rw [ih2]
          ring
      · simpa only [backtestGo, h, if_neg hc] using ih capital maxPos

/-- Claim C10: for every snapshot sequence and configuration, every emitted trade
has strictly positive net profit and clears the minimum-profit threshold (both
conditions of the acceptance test), and the final capital equals the initial
100000 plus the sum of the emitted net profits - so the running capital never
decreases. -/
theorem C10_backtest_capital (data : List Snapshot) (cfg : StrategyConfig) :
    (∀ t ∈ (backtest_strategy data cfg).1,
        0 < t.profit ∧ cfg.min_profit_threshold ≤ t.profit) ∧
    (backtest_strategy data cfg).2 =
      100000 + ((backtest_strategy data cfg).1.map Trade.profit).sum :=
  backtestGo_spec cfg data 100000 (100000 * cfg.position_size_pct)

/-- Claim C10 witness: the invariant evaluated on a concrete snapshot that does
produce a trade (buy 83, sell 95 with the default configuration). -/
theorem C10_witness :
    (0 < ((backtest_strategy [⟨0, 12, 83, 95⟩] current_config).1.headI).profit ∧
      current_config.min_profit_threshold ≤
        ((backtest_strategy [⟨0, 12, 83, 95⟩] current_config).1.headI).profit) ∧
    (backtest_strategy [⟨0, 12, 83, 95⟩] current_config).2 =
      100000 +
        ((backtest_strategy [⟨0, 12, 83, 95⟩] current_config).1.map Trade.profit).sum := by
  refine ⟨(C10_backtest_capital [⟨0, 12, 83, 95⟩] current_config).1 _ ?_,
    (C10_backtest_capital [⟨0, 12, 83, 95⟩] current_config).2⟩
  norm_num [backtest_strategy, backtestGo, calculate_profit,
    calculate_transaction_costs, Exchange.trading_fee, Exchange.withdrawal_fee,
    tds_rate, current_config, List.headI]

/-- Claim C9: the backtest engine is a deterministic pure function of the snapshot
sequence and the configuration: two runs on identical inputs produce identical
trade sequences and identical final capital (the embedding exhibits
`backtest_strategy` as a function with no random or hidden state). -/
theorem C9_backtest_deterministic (d1 d2 : List Snapshot) (c1 c2 : StrategyConfig)
    (hd : d1 = d2) (hc : c1 = c2) :
    (backtest_strategy d1 c1).1 = (backtest_strategy d2 c2).1 ∧
    (backtest_strategy d1 c1).2 = (backtest_strategy d2 c2).2 := by
  subst hd
  subst hc
  exact ⟨rfl, rfl⟩

/-- Claim C9 witness: two runs on the same concrete snapshot list and the default
configuration coincide. -/
theorem C9_witness :
    (backtest_strategy [⟨0, 12, 83, 95⟩] current_config).1 =
      (backtest_strategy [⟨0, 12, 83, 95⟩] current_config).1 ∧
    (backtest_strategy [⟨0, 12, 83, 95⟩] current_config).2 =
      (backtest_strategy [⟨0, 12, 83, 95⟩] current_config).2 :=
  C9_backtest_deterministic [⟨0, 12, 83, 95⟩] [⟨0, 12, 83, 95⟩] current_config
    current_config rfl rfl

/- Helper: quarter-Kelly with the clamp is never negative. -/
theorem kelly_criterion_nonneg (p w l : ℚ) : 0 ≤ kelly_criterion p w l := by
  unfold kelly_criterion
  split
  · exact le_refl 0
  · exact le_max_left 0 _

/- Helper: quarter-Kelly with the clamp never exceeds 0.15. -/
theorem kelly_criterion_le (p w l : ℚ) : kelly_criterion p w l ≤ 3 / 20 := by
  unfold kelly_criterion
  split
  · norm_num
  · exact max_le (by norm_num) (min_le_right _ _)

/- Helper: the shape of the `percent_volatility` field surfaced by
`calculate_position_sizing_rules`: the unclamped `0.01 / std` when the sample
variance of the pct-change returns is positive, the fixed 0.02 otherwise. -/
theorem posRules_pvol_shape {profits : List ℚ} {ps : PositionSizing}
    (h : calculate_position_sizing_rules profits = some ps) :
    (0 < sampleVar (pctChange profits) ∧
      ps.percent_volatility = .divSqrt (1 / 100) (sampleVar (pctChange profits))) ∨
    (¬0 < sampleVar (pctChange profits) ∧ ps.percent_volatility = .q (1 / 50)) := by
  simp only [calculate_position_sizing_rules] at h
  split at h
  · cases h
  · have := Option.some.inj h
    subst this
    by_cases hv : 0 < sampleVar (pctChange profits)
    · exact Or.inl ⟨hv, by simp [hv]⟩
    · exact Or.inr ⟨hv, by simp [hv]⟩

/- Helper: the kelly and fixed-fractional fields surfaced by
`calculate_position_sizing_rules`. -/
theorem posRules_kelly_fixed {profits : List ℚ} {ps : PositionSizing}
    (h : calculate_position_sizing_rules profits = some ps) :
    0 ≤ ps.kelly_criterion ∧ ps.fixed_fractional = 1 / 50 := by
  simp only [calculate_position_sizing_rules] at h
  split at h
  · cases h
  · have := Option.some.inj h
    subst this
    exact ⟨kelly_criterion_nonneg _ _ _, rfl⟩

/- Helper: with a zero average loss `calculate_position_sizing_rules` stores raw
`np.inf` in the profit factor. -/
theorem posRules_profit_factor {profits : List ℚ} {ps : PositionSizing}
    (h : calculate_position_sizing_rules profits = some ps) (h0 : ps.avg_loss = 0) :
    ps.profit_factor = .posInf := by
  simp only [calculate_position_sizing_rules] at h
  split at h
  · cases h
  · have := Option.some.inj h
    subst this
    simp only at h0
    simp [h0]

/-- Claim C2 counterexample: on the all-gain profit series 100, 101, 102 the Omega
ratio and the profit factor are reported as raw `np.inf` (not a 0 or an
"undefined" sentinel), and on a return series whose only observation is negative
the downside deviation is zero yet the Sortino ratio is a raw division by that
zero deviation rather than 0 - so the claim that no field is infinity and that
zero-denominator ratios are normalized is false. -/
theorem C2_counterexample :
    omega_ratio_metric [100, 101, 102] = FloatV.posInf ∧
    ((calculate_position_sizing_rules [100, 101, 102]).getD default).profit_factor =
      FloatV.posInf ∧
    npVarP (([-(1 : ℚ) / 252].map fun x => x * 252).filter fun x => x < 0) = 0 ∧
    sortino_ratio_metric [-(1 : ℚ) / 252] ≠ FloatV.q 0 := by
  refine ⟨?_, ?_, ?_, ?_⟩
  · norm_num [omega_ratio_metric, pctChange]
  · norm_num [calculate_position_sizing_rules, pctChange, sampleVar, listMean,
      kelly_criterion]
  · norm_num [npVarP, listMean]
  · norm_num [sortino_ratio_metric, npVarP, listMean]
    exact fun hcon => FloatV.noConfusion hcon

/-- Claim C2 (amended): the Sharpe ratio is reported as 0 when the volatility of
the annualized series is zero, and the Sortino ratio is reported as 0 when the
annualized series has no negative entries (its guard is the presence of negative
returns, not the downside deviation); but when the series has no losses the Omega
ratio and the profit factor are reported as raw `np.inf`, not as a 0 or an
"undefined" sentinel. -/
theorem C2_amended :
    (∀ r : List ℚ, npVarP (r.map fun x => x * 252) = 0 → sharpe_ratio_metric r = .q 0) ∧
    (∀ r : List ℚ, ((r.map fun x => x * 252).filter fun x => x < 0) = [] →
      sortino_ratio_metric r = .q 0) ∧
    (∀ p : List ℚ, |((pctChange p).filter fun x => x ≤ 0).sum| = 0 →
      omega_ratio_metric p = .posInf) ∧
    (∀ (p : List ℚ) (ps : PositionSizing), calculate_position_sizing_rules p = some ps →
      ps.avg_loss = 0 → ps.profit_factor = .posInf) := by
  refine ⟨?_, ?_, ?_, fun p ps h h0 => posRules_profit_factor h h0⟩
  · intro r h
    simp [sharpe_ratio_metric, h]
  · intro r h
    simp [sortino_ratio_metric, h]
  · intro p h
    simp [omega_ratio_metric, h]

/-- Claim C2 witness: the amended statement evaluated at concrete inputs - a
single-observation series for the Sharpe and Sortino zero branches, and all-gain
series for the Omega ratio and the profit factor. -/
theorem C2_witness :
    sharpe_ratio_metric [(1 : ℚ) / 252] = .q 0 ∧
    sortino_ratio_metric [(1 : ℚ) / 252] = .q 0 ∧
    omega_ratio_metric [100, 101] = .posInf ∧
    (PositionSizing.mk 0 (1 / 50) (.divSqrt (1 / 100) (1 / 204020000)) 1 101 0
        .posInf).profit_factor = .posInf := by
  refine ⟨C2_amended.1 _ ?_, C2_amended.2.1 _ ?_, C2_amended.2.2.1 _ ?_,
    C2_amended.2.2.2 [100, 101, 102] _ ?_ rfl⟩
  · norm_num [npVarP, listMean]
  · norm_num
  · norm_num [pctChange]
  · norm_num [calculate_position_sizing_rules, pctChange, sampleVar, listMean,
      kelly_criterion]

/- Helper: a ratio `0.01 / sqrt v` exceeds the 0.15 cap as soon as the positive
variance `v` is below 1/225. -/
theorem pvol_exceeds (v : ℚ) (h0 : 0 < v) (hlt : v < 1 / 225) :
    (3 / 20 : ℝ) < ((1 / 100 : ℚ) : ℝ) / Real.sqrt ((v : ℚ) : ℝ) := by
  have hv : (0 : ℝ) < (v : ℝ) := by exact_mod_cast h0
  have hs : 0 < Real.sqrt (v : ℝ) := Real.sqrt_pos.mpr hv
  have hlt15 : Real.sqrt (v : ℝ) < 1 / 15 := by
    refine (Real.sqrt_lt' (by norm_num)).mpr ?_
    have : ((v : ℚ) : ℝ) < ((1 / 225 : ℚ) : ℝ) := by exact_mod_cast hlt
    calc (v : ℝ) < ((1 / 225 : ℚ) : ℝ) := this
    _ = (1 / 15 : ℝ) ^ 2 := by norm_num
  rw [lt_div_iff₀ hs]
  calc (3 / 20 : ℝ) * Real.sqrt (v : ℝ) < 3 / 20 * (1 / 15) := by
        exact mul_lt_mul_of_pos_left hlt15 (by norm_num)
  _ = 1 / 100 := by norm_num
  _ = ((1 / 100 : ℚ) : ℝ) := by norm_num

/-- Claim C3 counterexample: on the concrete profit series 100, 101, 102 the
surfaced volatility-target (percent-volatility) fraction is `0.01 / std` with the
tiny sample variance 1/204020000, whose real value exceeds 0.15 - so the claim
that this fraction is clamped into [0, 0.15] before entering the recommended
blend is false. -/
theorem C3_counterexample :
    ((calculate_position_sizing_rules [100, 101, 102]).getD default).percent_volatility =
      FloatV.divSqrt (1 / 100) (1 / 204020000) ∧
    FloatVRepr (FloatV.divSqrt (1 / 100) (1 / 204020000))
      (((1 / 100 : ℚ) : ℝ) / Real.sqrt ((1 / 204020000 : ℚ) : ℝ)) ∧
    (3 / 20 : ℝ) < ((1 / 100 : ℚ) : ℝ) / Real.sqrt ((1 / 204020000 : ℚ) : ℝ) := by
  refine ⟨?_, rfl, pvol_exceeds _ (by norm_num) (by norm_num)⟩
  norm_num [calculate_position_sizing_rules, pctChange, sampleVar, listMean,
    kelly_criterion]

/-- Claim C3 (amended): the volatility-target fraction is surfaced with no clamp
at all: it is always strictly positive, equals the fixed fallback 0.02 when the
realized volatility is zero, and exceeds the 0.15 cap whenever the positive sample
variance of the returns is below 1/225; it enters the recommended blend raw. -/
theorem C3_amended (profits : List ℚ) (ps : PositionSizing) (x : ℝ)
    (hps : calculate_position_sizing_rules profits = some ps)
    (hx : FloatVRepr ps.percent_volatility x) :
    0 < x ∧
    (sampleVar (pctChange profits) = 0 → x = 1 / 50) ∧
    (0 < sampleVar (pctChange profits) → sampleVar (pctChange profits) < 1 / 225 →
      3 / 20 < x) := by
  rcases posRules_pvol_shape hps with ⟨hv, hshape⟩ | ⟨hv, hshape⟩
  · rw [hshape] at hx
    rw [show x = ((1 / 100 : ℚ) : ℝ) / Real.sqrt ((sampleVar (pctChange profits) : ℚ) : ℝ)
      from hx]
    refine ⟨?_, ?_, ?_⟩
    · have hvr : (0 : ℝ) < ((sampleVar (pctChange profits) : ℚ) : ℝ) := by
        exact_mod_cast hv
      exact div_pos (by norm_num) (Real.sqrt_pos.mpr hvr)
    · intro h0
      exact absurd h0 (ne_of_gt hv)
    · intro _ hlt
      exact pvol_exceeds _ hv hlt
  · rw [hshape] at hx
    rw [show x = ((1 / 50 : ℚ) : ℝ) from hx]
    refine ⟨by norm_num, fun _ => by norm_num, fun h0 _ => absurd h0 hv⟩

/-- Claim C3 witness: the amended statement evaluated at the concrete profit
series 100, 101, 102 and the explicit real value of its surfaced fraction. -/
theorem C3_witness :
    0 < ((1 / 100 : ℚ) : ℝ) / Real.sqrt ((1 / 204020000 : ℚ) : ℝ) ∧
    (sampleVar (pctChange [100, 101, 102]) = 0 →
      ((1 / 100 : ℚ) : ℝ) / Real.sqrt ((1 / 204020000 : ℚ) : ℝ) = 1 / 50) ∧
    (0 < sampleVar (pctChange [100, 101, 102]) →
      sampleVar (pctChange [100, 101, 102]) < 1 / 225 →
      3 / 20 < ((1 / 100 : ℚ) : ℝ) / Real.sqrt ((1 / 204020000 : ℚ) : ℝ)) :=
  C3_amended [100, 101, 102]
    ⟨0, 1 / 50, .divSqrt (1 / 100) (1 / 204020000), 1, 101, 0, .posInf⟩ _
    (by norm_num [calculate_position_sizing_rules, pctChange, sampleVar, listMean,
      kelly_criterion])
    rfl

/-- Claim C7: for every win rate in [0,1] and every average win/loss pair the
Kelly-derived size (quarter-Kelly, clamped) lies in [0, 0.15]; and for every
historical profit series the recommended blended size - the mean of the Kelly,
fixed-fractional and volatility-target fractions capped at 0.10 - lies in
[0, 0.10]. -/
theorem C7_position_size_bounds :
    (∀ p w l : ℚ, 0 ≤ p → p ≤ 1 →
      0 ≤ kelly_criterion p w l ∧ kelly_criterion p w l ≤ 3 / 20) ∧
    (∀ (profits : List ℚ) (x : ℝ), recommendedRepr profits x → 0 ≤ x ∧ x ≤ 1 / 10) := by
  constructor
  · intro p w l _ _
    exact ⟨kelly_criterion_nonneg p w l, kelly_criterion_le p w l⟩
  · rintro profits x ⟨ps, pv, hps, hpv, hx⟩
    have hk := (posRules_kelly_fixed hps).1
    have hf := (posRules_kelly_fixed hps).2
    have hpv0 : 0 ≤ pv := by
      rcases posRules_pvol_shape hps with ⟨hv, hshape⟩ | ⟨_, hshape⟩
      · rw [hshape] at hpv
        rw [show pv = ((1 / 100 : ℚ) : ℝ) / Real.sqrt ((sampleVar (pctChange profits) : ℚ) : ℝ)
          from hpv]
        exact div_nonneg (by norm_num) (Real.sqrt_nonneg _)
      · rw [hshape] at hpv
        rw [show pv = ((1 / 50 : ℚ) : ℝ) from hpv]
        norm_num
    subst hx
    refine ⟨le_min ?_ (by norm_num), min_le_right _ _⟩
    have hk' : (0 : ℝ) ≤ (ps.kelly_criterion : ℝ) := by exact_mod_cast hk
    have hf' : (0 : ℝ) ≤ (ps.fixed_fractional : ℝ) := by
      rw [hf]; norm_num
    positivity

/-- Claim C7 witness: the Kelly bound at the concrete inputs (1/2, 3, -2) and the
recommended-blend bound at the concrete profit series 100, 101, 102. -/
theorem C7_witness :
    (0 ≤ kelly_criterion (1 / 2) 3 (-2) ∧ kelly_criterion (1 / 2) 3 (-2) ≤ 3 / 20) ∧
    (0 ≤ min ((((0 : ℚ) : ℝ) + ((1 / 50 : ℚ) : ℝ) +
          ((1 / 100 : ℚ) : ℝ) / Real.sqrt ((1 / 204020000 : ℚ) : ℝ)) / 3) (1 / 10) ∧
      min ((((0 : ℚ) : ℝ) + ((1 / 50 : ℚ) : ℝ) +
          ((1 / 100 : ℚ) : ℝ) / Real.sqrt ((1 / 204020000 : ℚ) : ℝ)) / 3) (1 / 10) ≤
        1 / 10) :=
  ⟨C7_position_size_bounds.1 (1 / 2) 3 (-2) (by norm_num) (by norm_num),
    C7_position_size_bounds.2 [100, 101, 102] _
      ⟨⟨0, 1 / 50, .divSqrt (1 / 100) (1 / 204020000), 1, 101, 0, .posInf⟩,
        ((1 / 100 : ℚ) : ℝ) / Real.sqrt ((1 / 204020000 : ℚ) : ℝ),
        by norm_num [calculate_position_sizing_rules, pctChange, sampleVar, listMean,
          kelly_criterion],
        rfl, rfl⟩⟩

/- Helper: the mean of a nonempty list bounded above by `B` is at most `B`. -/
theorem listMean_le_of_forall {l : List ℚ} (hne : l ≠ []) {B : ℚ}
    (h : ∀ x ∈ l, x ≤ B) : listMean l ≤ B := by
  have hlen : 0 < (l.length : ℚ) := by
    have := List.length_pos.mpr hne
    exact_mod_cast this
  have hsum : l.sum ≤ (l.length : ℚ) * B := by
    have := List.sum_le_card_nsmul l B h
    rwa [nsmul_eq_mul] at this
  rw [listMean, div_le_iff₀ hlen]
  linarith

/- Helper: entries of a sorted list are monotone in the index. -/
theorem sorted_getD_mono {s : List ℚ} (hsorted : List.Sorted (· ≤ ·) s) :
    ∀ i j : ℕ, i ≤ j → j < s.length → s.getD i 0 ≤ s.getD j 0 := by
  intro i j hij hj
  rcases eq_or_lt_of_le hij with rfl | hlt
  · exact le_refl _
  · rw [List.getD_eq_getElem s 0 (lt_of_le_of_lt hij hj), List.getD_eq_getElem s 0 hj]
    exact List.pairwise_iff_getElem.mp hsorted i j (lt_of_le_of_lt hij hj) hj hlt

/- Helper: the linearly interpolated numpy percentile is at least the smallest
observation, for any percentage in [0, 100]. -/
theorem head_le_npPercentile (l : List ℚ) (q : ℚ) (hne : l ≠ []) (hq0 : 0 ≤ q)
    (hq1 : q ≤ 100) :
    (List.insertionSort (· ≤ ·) l).getD 0 0 ≤ npPercentile l q := by
  have hsne : List.insertionSort (· ≤ ·) l ≠ [] := by
    intro h
    have hperm := List.perm_insertionSort (· ≤ ·) l
    rw [h] at hperm
    exact hne hperm.nil_eq.symm
  set s := List.insertionSort (· ≤ ·) l with hs
  have hsorted : List.Sorted (· ≤ ·) s := List.sorted_insertionSort (· ≤ ·) l
  have hn : 0 < s.length := List.length_pos.mpr hsne
  set n := s.length with hnn
  set rank : ℚ := q / 100 * ((n : ℚ) - 1) with hrank
  have hn1 : (0 : ℚ) ≤ (n : ℚ) - 1 := by
    have : (1 : ℚ) ≤ (n : ℚ) := by exact_mod_cast hn
    linarith
  have hrank0 : 0 ≤ rank := mul_nonneg (div_nonneg hq0 (by norm_num)) hn1
  have hrankn : rank ≤ (n : ℚ) - 1 := by
    have hq' : q / 100 ≤ 1 := (div_le_one (by norm_num)).mpr hq1
    exact mul_le_of_le_one_left hn1 hq'
  have hfl0 : (0 : ℤ) ≤ ⌊rank⌋ := Int.floor_nonneg.mpr hrank0
  have hflrank : (⌊rank⌋ : ℚ) ≤ rank := Int.floor_le rank
  have hfln : ⌊rank⌋ ≤ (n : ℤ) - 1 := by
    have : (⌊rank⌋ : ℚ) ≤ (n : ℚ) - 1 := le_trans hflrank hrankn
    exact_mod_cast this
  have hkofz : ((⌊rank⌋.toNat : ℤ)) = ⌊rank⌋ := Int.toNat_of_nonneg hfl0
  have hkn1 : ⌊rank⌋.toNat ≤ n - 1 := by omega
  have hkn : ⌊rank⌋.toNat < n := by omega
  have hf0 : 0 ≤ rank - (⌊rank⌋ : ℚ) := sub_nonneg.mpr hflrank
  have hkk' : ⌊rank⌋.toNat ≤ min (⌊rank⌋.toNat + 1) (n - 1) := by omega
  have hk'n : min (⌊rank⌋.toNat + 1) (n - 1) < n := by omega
  have hsk : s.getD ⌊rank⌋.toNat 0 ≤ s.getD (min (⌊rank⌋.toNat + 1) (n - 1)) 0 :=
    sorted_getD_mono hsorted _ _ hkk' hk'n
  have hhead : s.getD 0 0 ≤ s.getD ⌊rank⌋.toNat 0 :=
    sorted_getD_mono hsorted 0 _ (Nat.zero_le _) hkn
  have hval : s.getD ⌊rank⌋.toNat 0 ≤
      s.getD ⌊rank⌋.toNat 0 + (rank - (⌊rank⌋ : ℚ)) *
        (s.getD (min (⌊rank⌋.toNat + 1) (n - 1)) 0 - s.getD ⌊rank⌋.toNat 0) :=
    le_add_of_nonneg_right (mul_nonneg hf0 (sub_nonneg.mpr hsk))
  calc s.getD 0 0 ≤ s.getD ⌊rank⌋.toNat 0 := hhead
  _ ≤ _ := hval

/- Helper: the smallest observation is a member of the original list. -/
theorem sortHead_mem {l : List ℚ} (hne : l ≠ []) :
    (List.insertionSort (· ≤ ·) l).getD 0 0 ∈ l := by
  have hsne : List.insertionSort (· ≤ ·) l ≠ [] := by
    intro h
    have hperm := List.perm_insertionSort (· ≤ ·) l
    rw [h] at hperm
    exact hne hperm.nil_eq.symm
  have hn : 0 < (List.insertionSort (· ≤ ·) l).length := List.length_pos.mpr hsne
  rw [List.getD_eq_getElem _ 0 hn]
  exact (List.perm_insertionSort (· ≤ ·) l).mem_iff.mp (List.getElem_mem hn)

/-- Claim C5: for every nonempty return series and every confidence level in
(0,1), the CVaR - the mean of all observations at or below the historical VaR
threshold - is at most the historical VaR quantile itself. -/
theorem C5_cvar_le_var (r : List ℚ) (c : ℚ) (hne : r ≠ []) (h0 : 0 < c)
    (h1 : c < 1) :
    calculate_cvar r c ≤ calculate_var_historical r c := by
  simp only [calculate_cvar, calculate_var_historical]
  have hq0 : 0 ≤ c * 100 := by linarith
  have hq1 : c * 100 ≤ 100 := by linarith
  have hhead := head_le_npPercentile r (c * 100) hne hq0 hq1
  have hfil : (List.insertionSort (· ≤ ·) r).getD 0 0 ∈
      r.filter fun x => x ≤ npPercentile r (c * 100) := by
    refine List.mem_filter.mpr ⟨sortHead_mem hne, ?_⟩
    exact decide_eq_true hhead
  refine listMean_le_of_forall (List.ne_nil_of_mem hfil) ?_
  intro x hx
  exact of_decide_eq_true (List.mem_filter.mp hx).2

/-- Claim C5 witness: the inequality evaluated on the concrete series 3, -2, 1 at
the default 0.05 confidence level. -/
theorem C5_witness :
    calculate_cvar [3, -2, 1] (1 / 20) ≤ calculate_var_historical [3, -2, 1] (1 / 20) :=
  C5_cvar_le_var [3, -2, 1] (1 / 20) (by simp) (by norm_num) (by norm_num)

/- Helper: NaN on the left absorbs one numpy minimum step. -/
theorem min2_nan_left (y : DDVal) : DDVal.min2 .nan y = .nan := by
  cases y <;> rfl

/- Helper: NaN absorbs the numpy minimum fold. -/
theorem foldl_min2_nan : ∀ l : List DDVal, l.foldl DDVal.min2 .nan = .nan := by
  intro l
  induction l with
  | nil => rfl
  | cons y ys ih =>
    rw [List.foldl_cons, min2_nan_left]
    exact ih

/- Helper: one numpy minimum step keeps a non-positive accumulator non-positive,
unless the new entry is NaN. -/
theorem min2_preserve (a y : DDVal) (h : a.le0) :
    DDVal.min2 a y = .nan ∨ (DDVal.min2 a y).le0 := by
  cases a <;> cases y <;> simp_all [DDVal.min2, DDVal.le0]

/- Helper: the numpy minimum fold of a non-positive starting value stays
non-positive or degenerates to NaN. -/
theorem foldl_min2_le0 : ∀ (l : List DDVal) (a : DDVal), a.le0 →
    l.foldl DDVal.min2 a = .nan ∨ (l.foldl DDVal.min2 a).le0 := by
  intro l
  induction l with
  | nil => exact fun a h => Or.inr h
  | cons y ys ih =>
    intro a h
    rw [List.foldl_cons]
    rcases min2_preserve a y h with hnan | hle
    · rw [hnan]
      exact Or.inl (foldl_min2_nan ys)
    · exact ih _ hle

/- Helper: the cumulative product of a series of -100% returns is identically
zero. -/
theorem cumprod_repl_negone : ∀ (n : ℕ) (a : ℚ),
    cumprod1p a (List.replicate n (-1)) = List.replicate n 0 := by
  intro n
  induction n with
  | zero => intro a; rfl
  | succ m ih =>
    intro a
    rw [List.replicate_succ, cumprod1p]
    rw [show a * (1 + (-1 : ℚ)) = 0 by ring]
    rw [ih 0, List.replicate_succ]

/- Helper: the cumulative product of a series of zero returns is a constant path. -/
theorem cumprod_repl_zero : ∀ (n : ℕ) (a : ℚ),
    cumprod1p a (List.replicate n 0) = List.replicate n a := by
  intro n
  induction n with
  | zero => intro a; rfl
  | succ m ih =>
    intro a
    rw [List.replicate_succ, cumprod1p]
    rw [show a * (1 + (0 : ℚ)) = a by ring]
    rw [ih a, List.replicate_succ]

/- Helper: the running maximum of a constant path is the path itself. -/
theorem runningMaxAux_repl : ∀ (n : ℕ) (a : ℚ),
    runningMaxAux a (List.replicate n a) = List.replicate n a := by
  intro n
  induction n with
  | zero => intro a; rfl
  | succ m ih =>
    intro a
    rw [List.replicate_succ, runningMaxAux]
    rw [show max a a = a from max_self a]
    rw [ih a]

/- Helper: the running maximum of a constant path. -/
theorem runningMax_repl (n : ℕ) (a : ℚ) :
    runningMax (List.replicate n a) = List.replicate n a := by
  cases n with
  | zero => rfl
  | succ m =>
    rw [List.replicate_succ, runningMax, runningMaxAux_repl]

/- Helper: the drawdown entries of a constant equity path against a constant
running maximum. -/
theorem zipWith_ddOf_repl : ∀ (n : ℕ) (c m : ℚ),
    List.zipWith ddOf (List.replicate n c) (List.replicate n m) =
      List.replicate n (ddOf c m) := by
  intro n
  induction n with
  | zero => intro c m; rfl
  | succ k ih =>
    intro c m
    rw [List.replicate_succ, List.replicate_succ, List.zipWith_cons_cons, ih,
      List.replicate_succ]

/- Helper: the maximum drawdown of an all -100% return series is NaN: the equity
path is identically zero, so every drawdown entry is the numpy 0/0. -/
theorem maxDD_repl_negone (n : ℕ) :
    calculate_maximum_drawdown (List.replicate (n + 1) (-1 : ℚ)) = .nan := by
  simp only [calculate_maximum_drawdown]
  rw [cumprod_repl_negone, runningMax_repl, zipWith_ddOf_repl]
  rw [show ddOf 0 0 = .nan from by simp [ddOf]]
  rw [List.replicate_succ, npMinDD]
  exact foldl_min2_nan _

/- Helper: the numpy minimum fold over constant zero drawdowns. -/
theorem foldl_min2_fin0 : ∀ n : ℕ,
    (List.replicate n (DDVal.fin 0)).foldl DDVal.min2 (DDVal.fin 0) = DDVal.fin 0 := by
  intro n
  induction n with
  | zero => rfl
  | succ m ih =>
    rw [List.replicate_succ, List.foldl_cons]
    rw [show DDVal.min2 (.fin 0) (.fin 0) = .fin 0 from by simp [DDVal.min2]]
    exact ih

/- Helper: the maximum drawdown of an all-zero return series is exactly 0. -/
theorem maxDD_repl_zero (n : ℕ) :
    calculate_maximum_drawdown (List.replicate (n + 1) (0 : ℚ)) = .fin 0 := by
  simp only [calculate_maximum_drawdown]
  rw [cumprod_repl_zero, runningMax_repl, zipWith_ddOf_repl]
  rw [show ddOf 1 1 = .fin 0 from by norm_num [ddOf]]
  rw [List.replicate_succ, npMinDD]
  exact foldl_min2_fin0 n

/-- Claim C6 counterexample: the 30-element return series of -100% returns drives
the cumulative-product equity path to zero everywhere, every drawdown entry is the
numpy 0/0 = NaN, and `drawdown.min()` is NaN - which is not <= 0 - so the claim
that the maximum drawdown is <= 0 for every series of length >= 30 is false. -/
theorem C6_counterexample :
    (List.replicate 30 (-1 : ℚ)).length = 30 ∧
    calculate_maximum_drawdown (List.replicate 30 (-1 : ℚ)) = .nan ∧
    ¬(calculate_maximum_drawdown (List.replicate 30 (-1 : ℚ))).le0 := by
  have h := maxDD_repl_negone 29
  norm_num at h
  exact ⟨by simp, h, by rw [h]; exact fun hc => hc⟩

/-- Claim C6 (amended): for every return series with at least 30 elements whose
maximum drawdown does not degenerate to NaN (as it does when the equity path and
its running maximum hit exactly zero together), the reported maximum drawdown is
non-positive: the first drawdown entry is 0 and the minimum can only move down or
to -infinity. -/
theorem C6_amended (r : List ℚ) (hlen : 30 ≤ r.length)
    (hnan : calculate_maximum_drawdown r ≠ .nan) :
    (calculate_maximum_drawdown r).le0 := by
  cases r with
  | nil => norm_num at hlen
  | cons x xs =>
    have hexp : calculate_maximum_drawdown (x :: xs) =
        (List.zipWith ddOf (cumprod1p (1 * (1 + x)) xs)
          (runningMaxAux (1 * (1 + x)) (cumprod1p (1 * (1 + x)) xs))).foldl DDVal.min2
          (ddOf (1 * (1 + x)) (1 * (1 + x))) := by
      simp only [calculate_maximum_drawdown, cumprod1p, runningMax,
        List.zipWith_cons_cons, npMinDD]
    rw [hexp] at hnan ⊢
    by_cases hz : 1 * (1 + x) = 0
    · exfalso
      apply hnan
      rw [show ddOf (1 * (1 + x)) (1 * (1 + x)) = .nan from by simp [ddOf, hz]]
      exact foldl_min2_nan _
    · have hz' : ¬(1 + x) = 0 := by
        intro h
        exact hz (by rw [h]; ring)
      rw [show ddOf (1 * (1 + x)) (1 * (1 + x)) = .fin 0 from by
        simp [ddOf, hz']]
      rw [show ddOf (1 * (1 + x)) (1 * (1 + x)) = .fin 0 from by
        simp [ddOf, hz']] at hnan
      rcases foldl_min2_le0 _ (DDVal.fin 0) (le_refl 0) with hnan2 | hle
      · exact absurd hnan2 hnan
      · exact hle

/-- Claim C6 witness: the amended statement evaluated on the 30-element all-zero
return series, whose maximum drawdown is exactly 0. -/
theorem C6_witness :
    (calculate_maximum_drawdown (List.replicate 30 (0 : ℚ))).le0 := by
  have h := maxDD_repl_zero 29
  norm_num at h
  exact C6_amended (List.replicate 30 0) (by simp)
    (by rw [h]; exact fun hc => DDVal.noConfusion hc)

/- Helper: the real interpretation of a symbolic float is unique. -/
theorem FloatVRepr_functional {v : FloatV} {x y : ℝ} (hx : FloatVRepr v x)
    (hy : FloatVRepr v y) : x = y := by
  cases v with
  | q a => exact hx.trans hy.symm
  | posInf => exact hx.elim
  | divSqrt n v => exact hx.trans hy.symm
  | sharpeAnn m v => exact hx.trans hy.symm

/- Helper: the real score of a sweep row is unique. -/
theorem scoreRepr_functional {p : ℚ} {r : ThrRow} {x y : ℝ} (hx : scoreRepr p r x)
    (hy : scoreRepr p r y) : x = y := by
  obtain ⟨sh, hsh, hxe⟩ := hx
  obtain ⟨sh2, hsh2, hye⟩ := hy
  rw [hxe, hye, FloatVRepr_functional hsh hsh2]

/- Helper: the real score column of a sweep is unique. -/
theorem forall2_score_unique {p : ℚ} : ∀ {rs : List ThrRow} {s1 s2 : List ℝ},
    List.Forall₂ (scoreRepr p) rs s1 → List.Forall₂ (scoreRepr p) rs s2 → s1 = s2 := by
  intro rs
  induction rs with
  | nil =>
    intro s1 s2 h1 h2
    cases h1
    cases h2
    rfl
  | cons r rst ih =>
    intro s1 s2 h1 h2
    rcases h1 with _ | ⟨hx, h1t⟩
    rcases h2 with _ | ⟨hy, h2t⟩
    rw [scoreRepr_functional hx hy, ih h1t h2t]

/- Helper: full characterisation of the idxmax scan: either nothing strictly
exceeded the incoming best (index and value are returned unchanged and every
scanned entry is bounded by the incoming value), or the first strictly greatest
scanned entry is returned, bounding all entries, with every earlier entry
strictly below it. -/
theorem idxmaxGo_spec {α : Type} [LinearOrder α] (d : α) :
    ∀ (xs : List α) (i bi : ℕ) (bv : α),
      ((idxmaxGo xs i bi bv).1 = bi ∧ (idxmaxGo xs i bi bv).2 = bv ∧
        ∀ k, k < xs.length → xs.getD k d ≤ bv) ∨
      (∃ k, k < xs.length ∧ (idxmaxGo xs i bi bv).1 = i + k ∧
        (idxmaxGo xs i bi bv).2 = xs.getD k d ∧
        bv < (idxmaxGo xs i bi bv).2 ∧
        (∀ j, j < xs.length → xs.getD j d ≤ (idxmaxGo xs i bi bv).2) ∧
        (∀ j, j < k → xs.getD j d < (idxmaxGo xs i bi bv).2)) := by
  intro xs
  induction xs with
  | nil =>
    intro i bi bv
    exact Or.inl ⟨rfl, rfl, fun k hk => absurd hk (by simp)⟩
  | cons x xs ih =>
    intro i bi bv
    simp only [idxmaxGo]
    by_cases hx : bv < x
    · rw [if_pos hx]
      rcases ih (i + 1) i x with ⟨h1, h2, h3⟩ | ⟨k, hk, h1, h2, h3, h4, h5⟩
      · refine Or.inr ⟨0, by simp, ?_, ?_, ?_, ?_, ?_⟩
        · rw [h1]
          omega
        · rw [h2]
          rfl
        · rw [h2]
          exact hx
        · intro j hj
          cases j with
          | zero => rw [h2]; exact le_refl x
          | succ j =>
            rw [List.getD_cons_succ, h2]
            exact h3 j (by simpa using hj)
        · intro j hj
          exact absurd hj (by omega)
      · refine Or.inr ⟨k + 1, by simpa using Nat.succ_lt_succ hk, ?_, ?_, ?_, ?_, ?_⟩
        · rw [h1]
          omega
        · rw [h2, List.getD_cons_succ]
        · exact lt_trans hx h3
        · intro j hj
          cases j with
          | zero =>
            rw [List.getD_cons_zero]
            exact le_of_lt h3
          | succ j =>
            rw [List.getD_cons_succ]
            exact h4 j (by simpa using hj)
        · intro j hj
          cases j with
          | zero =>
            rw [List.getD_cons_zero]
            exact h3
          | succ j =>
            rw [List.getD_cons_succ]
            exact h5 j (by omega)
    · rw [if_neg hx]
      rcases ih (i + 1) bi bv with ⟨h1, h2, h3⟩ | ⟨k, hk, h1, h2, h3, h4, h5⟩
      · refine Or.inl ⟨h1, h2, ?_⟩
        intro k hk
        cases k with
        | zero => exact le_of_not_lt hx
        | succ k =>
          rw [List.getD_cons_succ]
          exact h3 k (by simpa using hk)
      · refine Or.inr ⟨k + 1, by simpa using Nat.succ_lt_succ hk, ?_, ?_, ?_, ?_, ?_⟩
        · rw [h1]
          omega
        · rw [h2, List.getD_cons_succ]
        · exact h3
        · intro j hj
          cases j with
          | zero => exact le_of_lt (lt_of_le_of_lt (le_of_not_lt hx) h3)
          | succ j =>
            rw [List.getD_cons_succ]
            exact h4 j (by simpa using hj)
        · intro j hj
          cases j with
          | zero => exact lt_of_le_of_lt (le_of_not_lt hx) h3
          | succ j =>
            rw [List.getD_cons_succ]
            exact h5 j (by omega)

/- Helper: `idxmax` of a nonempty list is in range, attains the maximum, and every
earlier entry is strictly below the maximum (the first maximum wins). -/
theorem idxmax_spec {α : Type} [LinearOrder α] (d : α) (l : List α) (hne : l ≠ []) :
    idxmax l < l.length ∧
    (∀ j, j < l.length → l.getD j d ≤ l.getD (idxmax l) d) ∧
    (∀ j, j < idxmax l → l.getD j d < l.getD (idxmax l) d) := by
  cases l with
  | nil => exact absurd rfl hne
  | cons x xs =>
    simp only [idxmax, List.length_cons]
    rcases idxmaxGo_spec d xs 1 0 x with ⟨h1, h2, h3⟩ | ⟨k, hk, h1, h2, h3, h4, h5⟩
    · rw [h1]
      refine ⟨by omega, ?_, ?_⟩
      · intro j hj
        cases j with
        | zero => exact le_refl _
        | succ j =>
          rw [List.getD_cons_succ, List.getD_cons_zero]
          exact h3 j (by omega)
      · intro j hj
        exact absurd hj (by omega)
    · have h1' : (idxmaxGo xs 1 0 x).1 = k + 1 := by omega
      rw [h1']
      have hvk : (x :: xs).getD (k + 1) d = xs.getD k d := List.getD_cons_succ
      refine ⟨by omega, ?_, ?_⟩
      · intro j hj
        cases j with
        | zero =>
          rw [List.getD_cons_zero, hvk, ← h2]
          exact le_of_lt h3
        | succ j =>
          rw [List.getD_cons_succ, hvk, ← h2]
          exact h4 j (by omega)
      · intro j hj
        cases j with
        | zero =>
          rw [List.getD_cons_zero, hvk, ← h2]
          exact h3
        | succ j =>
          rw [List.getD_cons_succ, hvk, ← h2]
          exact h5 j (by omega)

/- Helper: a kept sweep row carries the grid threshold it was built from. -/
theorem sweepRow_threshold {data : List Snapshot} {t : ℚ} {r : ThrRow}
    (h : sweepRow data t = some r) : r.threshold = t := by
  simp only [sweepRow] at h
  split at h
  · cases h
  · have := Option.some.inj h
    subst this
    rfl

/- Helper: the thresholds of the kept sweep rows form a sublist of the grid. -/
theorem sweep_thresholds_sublist (data : List Snapshot) :
    ∀ l : List ℚ, ((l.filterMap (sweepRow data)).map ThrRow.threshold).Sublist l := by
  intro l
  induction l with
  | nil => simp
  | cons t ts ih =>
    cases h : sweepRow data t with
    | none =>
      rw [List.filterMap_cons_none h]
      exact ih.cons t
    | some r =>
      rw [List.filterMap_cons_some h, List.map_cons, sweepRow_threshold h]
      exact ih.cons₂ t

/- Helper: the grid is ascending. -/
theorem thresholdsGrid_sorted : List.Sorted (· ≤ ·) thresholdsGrid := by
  refine List.pairwise_iff_getElem.mpr ?_
  intro i j hi hj hij
  unfold thresholdsGrid at hi hj ⊢
  rw [List.getElem_map, List.getElem_map, List.getElem_range, List.getElem_range]
  have hcast : (i : ℚ) ≤ (j : ℚ) := by exact_mod_cast le_of_lt hij
  linarith

/- Helper: the thresholds of the kept sweep rows are ascending. -/
theorem sweep_thresholds_sorted (data : List Snapshot) :
    List.Sorted (· ≤ ·) ((sweepResults data).map ThrRow.threshold) :=
  List.Pairwise.sublist (sweep_thresholds_sublist data thresholdsGrid)
    thresholdsGrid_sorted

/- Helper: a grid point is dropped from the sweep exactly when its backtest
produced no trades. -/
theorem sweepRow_none_iff (data : List Snapshot) (t : ℚ) :
    sweepRow data t = none ↔
      (backtest_strategy data (configWithThreshold t)).1 = [] := by
  by_cases h : (backtest_strategy data (configWithThreshold t)).1 = []
  · simp [sweepRow, analyze_backtest_results, h]
  · simp [sweepRow, analyze_backtest_results, h]

/-- Claim C8: for every snapshot series, the threshold sweep returns the grid
point at the first index attaining the maximum of the score column
`0.4*sharpe + 0.3*totalProfit/maxProfit + 0.3*winRate` - so ties are broken
toward the smallest threshold, the ascending grid order making the first maximal
index the smallest maximal threshold - and when every grid point yields no
trades it returns the default threshold 100 unchanged. -/
theorem C8_threshold_sweep (data : List Snapshot) (out : ℚ)
    (h : optimize_profit_threshold_rel data out) (scores : List ℝ)
    (hs : scoresOf data scores) :
    ((∀ t ∈ thresholdsGrid,
        (backtest_strategy data (configWithThreshold t)).1 = []) → out = 100) ∧
    (sweepResults data ≠ [] →
      ∃ i, i < (sweepResults data).length ∧
        out = ((sweepResults data).getD i default).threshold ∧
        (∀ j, j < scores.length → scores.getD j 0 ≤ scores.getD i 0) ∧
        (∀ j, j < scores.length → scores.getD j 0 = scores.getD i 0 →
          ((sweepResults data).getD i default).threshold ≤
            ((sweepResults data).getD j default).threshold)) := by
  rcases h with ⟨hemp, hout⟩ | ⟨hne, scores2, hs2, hout⟩
  · exact ⟨fun _ => hout, fun hne => absurd hemp hne⟩
  · have hlen : (sweepResults data).length = scores.length := List.Forall₂.length_eq hs
    have hseq : scores2 = scores := forall2_score_unique hs2 hs
    rw [hseq] at hout
    constructor
    · intro hall
      exact absurd
        (List.filterMap_eq_nil_iff.mpr fun t ht =>
          (sweepRow_none_iff data t).mpr (hall t ht)) hne
    · intro _
      have hsne : scores ≠ [] := by
        intro h0
        exact hne (List.length_eq_zero.mp (by rw [hlen, h0]; rfl))
      obtain ⟨hidx, hmax, hstrict⟩ := idxmax_spec (0 : ℝ) scores hsne
      have hi : idxmax scores < (sweepResults data).length := by
        rw [hlen]
        exact hidx
      refine ⟨idxmax scores, hi, ?_, fun j hj => hmax j hj, ?_⟩
      · rw [hout]
        rw [List.getD_eq_getElem _ 0 (by simpa using hi), List.getElem_map,
          List.getD_eq_getElem _ default hi]
      · intro j hj heq
        have hj' : j < (sweepResults data).length := by
          rw [hlen]
          exact hj
        rcases lt_or_ge j (idxmax scores) with hlt | hge
        · exact absurd heq (ne_of_lt (hstrict j hlt))
        · rcases eq_or_lt_of_le hge with heq2 | hlt2
          · rw [heq2]
          · have hp := List.pairwise_iff_getElem.mp (sweep_thresholds_sorted data)
              (idxmax scores) j (by simpa using hi) (by simpa using hj') hlt2
            rw [List.getD_eq_getElem _ default hi, List.getD_eq_getElem _ default hj']
            simpa [List.getElem_map] using hp

/-- Claim C8 witness: the statement evaluated on the empty snapshot series, where
every grid point backtests to no trades, the sweep result list and score column
are empty, and the default threshold 100 is returned unchanged. -/
theorem C8_witness :
    ((∀ t ∈ thresholdsGrid,
        (backtest_strategy [] (configWithThreshold t)).1 = []) → (100 : ℚ) = 100) ∧
    (sweepResults [] ≠ [] →
      ∃ i, i < (sweepResults []).length ∧
        (100 : ℚ) = ((sweepResults []).getD i default).threshold ∧
        (∀ j, j < ([] : List ℝ).length →
          ([] : List ℝ).getD j 0 ≤ ([] : List ℝ).getD i 0) ∧
        (∀ j, j < ([] : List ℝ).length →
          ([] : List ℝ).getD j 0 = ([] : List ℝ).getD i 0 →
          ((sweepResults []).getD i default).threshold ≤
            ((sweepResults []).getD j default).threshold)) := by
  have hemp : sweepResults [] = [] := rfl
  exact C8_threshold_sweep [] 100 (Or.inl ⟨hemp, rfl⟩) []
    (by simp only [scoresOf]; rw [hemp]; exact List.Forall₂.nil)

end USDTBot
